import Mathlib

/-!
Verification of the NeuroLens backend (backend/main.py) against its
natural-language specification.

The Python source is shallowly embedded:
* Python strings used as session keys / connection ids / video urls are
  modelled as `List Char` (so that `str.startswith` becomes
  `List.isPrefixOf`); classifier label strings are modelled as `String`.
* Python floats are modelled as rationals `ℚ`.
* Python dicts are modelled as insertion-ordered association lists
  (assignment overwrites in place or appends at the end, which mirrors
  CPython dict semantics), with the no-duplicate-keys invariant stated
  explicitly where needed.
* The external collaborators (PIL image decoding, MediaPipe face
  detection, the ViT classifier, Python's seed-randomized `hash`) are
  parameters of the embedded functions.
-/

namespace NeuroLens

/-- Python strings that participate in key/prefix manipulation are
modelled as character lists, so `str.startswith` is `List.isPrefixOf`. -/
abbrev Str := List Char

/-- Model of `EMOTION_MAP` from backend/main.py: model output label → app label. -/
def EMOTION_MAP : List (String × String) :=
  [("happy", "joy"), ("surprise", "surprise"), ("angry", "anger"),
   ("sad", "sadness"), ("fear", "surprise"), ("disgust", "anger"),
   ("neutral", "neutral")]

/-- Model of `APP_EMOTIONS` from backend/main.py: the fixed application label set. -/
def APP_EMOTIONS : List String :=
  ["joy", "surprise", "anger", "sadness", "neutral"]

/-- Model of `EMOTION_MAP.get(label, "neutral")` — dict lookup with default. -/
def mapLabel (label : String) : String :=
  ((EMOTION_MAP.find? (fun p => p.1 == label)).map Prod.snd).getD "neutral"

/-- Model of `{e: 0.0 for e in APP_EMOTIONS}` — the accumulator initial value
(an ordered dict over the five app labels). -/
def initResult : List (String × ℚ) := APP_EMOTIONS.map (fun e => (e, 0))

/-- Model of `result[mapped] = max(result[mapped], float(prob))`: in-place update of
one key of the ordered dict (keys are unique, so the map touches one entry). -/
def updMax (r : List (String × ℚ)) (k : String) (v : ℚ) : List (String × ℚ) :=
  r.map (fun p => if p.1 = k then (p.1, max p.2 v) else p)

/-- The accumulation loop of `predict_emotion_local` (lines 156–161):
each raw label is lower-cased, mapped through `EMOTION_MAP` with default
`"neutral"`, and, when the mapped label is a key of `result`, the entry is
updated with the max of the old value and the incoming score. -/
def accumulate (raw : List (String × ℚ)) : List (String × ℚ) :=
  raw.foldl
    (fun r lp =>
      let mapped := mapLabel lp.1.toLower
      if (r.find? (fun p => p.1 == mapped)).isSome then updMax r mapped lp.2 else r)
    initResult

/-- Model of `total = sum(result.values())`. -/
def totalOf (r : List (String × ℚ)) : ℚ := (r.map Prod.snd).sum

/-- The renormalization step of `predict_emotion_local` (lines 163–168):
if the total is positive every entry is divided by it, otherwise
`result["neutral"] = 1.0`. -/
def renormalize (r : List (String × ℚ)) : List (String × ℚ) :=
  if 0 < totalOf r then r.map (fun p => (p.1, p.2 / totalOf r))
  else r.map (fun p => if p.1 = "neutral" then (p.1, 1) else p)

/-- The emotion-normalization step of `predict_emotion_local`
(lines 156–170): map raw classifier (label, score) pairs onto the app
labels and renormalize. -/
def normalize_emotions (raw : List (String × ℚ)) : List (String × ℚ) :=
  renormalize (accumulate raw)

/-- The degenerate `{neutral: 1.0}` vector over the five app labels. -/
def degenerateVector : List (String × ℚ) :=
  [("joy", 0), ("surprise", 0), ("anger", 0), ("sadness", 0), ("neutral", 1)]

-- Structural facts about the accumulator.

theorem updMax_keys (r : List (String × ℚ)) (k : String) (v : ℚ) :
    (updMax r k v).map Prod.fst = r.map Prod.fst := by
  induction r with
  | nil => rfl
  | cons p ps ih =>
    simp only [updMax, List.map_cons] at *
    by_cases h : p.1 = k <;> simp [h, ih]

theorem accumulate_keys (raw : List (String × ℚ)) :
    (accumulate raw).map Prod.fst = APP_EMOTIONS := by
  suffices h : ∀ (l : List (String × ℚ)) (r : List (String × ℚ)),
      r.map Prod.fst = APP_EMOTIONS →
      (l.foldl (fun r lp =>
        let mapped := mapLabel lp.1.toLower
        if (r.find? (fun p => p.1 == mapped)).isSome then updMax r mapped lp.2 else r)
        r).map Prod.fst = APP_EMOTIONS by
    exact h raw initResult (by decide)
  intro l
  induction l with
  | nil => intro r hr; simpa using hr
  | cons lp ls ih =>
    intro r hr
    simp only [List.foldl_cons]
    by_cases h : ((r.find? (fun p => p.1 == mapLabel lp.1.toLower)).isSome : Prop)
    · rw [if_pos h]
      exact ih _ (by rw [updMax_keys]; exact hr)
    · rw [if_neg h]
      exact ih _ hr

theorem updMax_nonneg (r : List (String × ℚ)) (k : String) (v : ℚ)
    (hr : ∀ p ∈ r, 0 ≤ p.2) (hv : 0 ≤ v) :
    ∀ p ∈ updMax r k v, 0 ≤ p.2 := by
  intro p hp
  simp only [updMax, List.mem_map] at hp
  obtain ⟨q, hq, hqe⟩ := hp
  by_cases h : q.1 = k
  · simp only [h, if_pos] at hqe
    subst hqe
    exact le_max_of_le_right hv
  · simp only [h, if_neg, not_false_iff] at hqe
    subst hqe
    exact hr q hq

theorem accumulate_nonneg (raw : List (String × ℚ))
    (hraw : ∀ p ∈ raw, 0 ≤ p.2) :
    ∀ p ∈ accumulate raw, 0 ≤ p.2 := by
  suffices h : ∀ (l : List (String × ℚ)), (∀ p ∈ l, 0 ≤ p.2) →
      ∀ (r : List (String × ℚ)), (∀ p ∈ r, 0 ≤ p.2) →
      ∀ p ∈ (l.foldl (fun r lp =>
        let mapped := mapLabel lp.1.toLower
        if (r.find? (fun p => p.1 == mapped)).isSome then updMax r mapped lp.2 else r)
        r), 0 ≤ p.2 by
    refine h raw hraw initResult ?_
    intro p hp
    simp only [initResult, List.mem_map] at hp
    obtain ⟨e, _, he⟩ := hp
    rw [← he]
  intro l
  induction l with
  | nil => intro _ r hr; simpa using hr
  | cons lp ls ih =>
    intro hl r hr
    simp only [List.foldl_cons]
    have hlp : 0 ≤ lp.2 := hl lp (by simp)
    have hls : ∀ p ∈ ls, 0 ≤ p.2 := fun p hp => hl p (by simp [hp])
    by_cases h : ((r.find? (fun p => p.1 == mapLabel lp.1.toLower)).isSome : Prop)
    · rw [if_pos h]
      exact ih hls _ (updMax_nonneg r _ lp.2 hr hlp)
    · rw [if_neg h]
      exact ih hls r hr

/-- An association list with all-zero values and the app-label key list is
the initial accumulator literally. -/
theorem eq_map_zero_of_keys_of_zero (r : List (String × ℚ)) (ks : List String)
    (hk : r.map Prod.fst = ks) (hz : ∀ p ∈ r, p.2 = 0) :
    r = ks.map (fun e => (e, (0 : ℚ))) := by
  induction r generalizing ks with
  | nil => simp only [List.map_nil] at hk; subst hk; rfl
  | cons p ps ih =>
    cases ks with
    | nil => simp at hk
    | cons k ks' =>
      simp only [List.map_cons, List.cons.injEq] at hk ⊢
      refine ⟨?_, ih ks' hk.2 (fun q hq => hz q (by simp [hq]))⟩
      have hp2 : p.2 = 0 := hz p (by simp)
      cases p
      simp_all

theorem sum_map_div (l : List ℚ) (c : ℚ) :
    (l.map (fun x => x / c)).sum = l.sum / c := by
  induction l with
  | nil => simp
  | cons x xs ih => simp [ih, add_div]

/-- Claim C1: for every raw classifier output with non-negative scores, the
emotion-normalization step of `predict_emotion_local` returns a vector over
exactly the five application labels, with all values in `[0, 1]` and summing
to exactly `1` (hence within `1e-6` of `1.0`); when the accumulated total is
zero the result is exactly the degenerate vector `{neutral: 1.0}`. -/
theorem emotion_normalize_distribution (raw : List (String × ℚ))
    (hraw : ∀ p ∈ raw, 0 ≤ p.2) :
    (normalize_emotions raw).map Prod.fst = APP_EMOTIONS ∧
    (∀ p ∈ normalize_emotions raw, 0 ≤ p.2 ∧ p.2 ≤ 1) ∧
    ((normalize_emotions raw).map Prod.snd).sum = 1 ∧
    (totalOf (accumulate raw) = 0 → normalize_emotions raw = degenerateVector) := by
  have hkeys := accumulate_keys raw
  have hnn := accumulate_nonneg raw hraw
  have hT : (0 : ℚ) ≤ totalOf (accumulate raw) := by
    refine List.sum_nonneg ?_
    intro x hx
    simp only [List.mem_map] at hx
    obtain ⟨p, hp, hpe⟩ := hx
    exact hpe ▸ hnn p hp
  by_cases hpos : 0 < totalOf (accumulate raw)
  · have hTne : totalOf (accumulate raw) ≠ 0 := ne_of_gt hpos
    have hre : normalize_emotions raw =
        (accumulate raw).map (fun p => (p.1, p.2 / totalOf (accumulate raw))) := by
      rw [normalize_emotions, renormalize, if_pos hpos]
    refine ⟨?_, ?_, ?_, ?_⟩
    · rw [hre, List.map_map]
      simpa using hkeys
    · intro p hp
      rw [hre] at hp
      simp only [List.mem_map] at hp
      obtain ⟨q, hq, hqe⟩ := hp
      have h0 : 0 ≤ q.2 := hnn q hq
      have hle : q.2 ≤ totalOf (accumulate raw) := by
        refine List.single_le_sum ?_ q.2 (List.mem_map_of_mem Prod.snd hq)
        intro x hx
        simp only [List.mem_map] at hx
        obtain ⟨p', hp', hpe'⟩ := hx
        exact hpe' ▸ hnn p' hp'
      constructor
      · rw [← hqe]
        exact div_nonneg h0 hT
      · rw [← hqe]
        exact (div_le_one hpos).mpr hle
    · rw [hre, List.map_map]
      have h1 : (Prod.snd ∘ fun p : String × ℚ =>
          (p.1, p.2 / totalOf (accumulate raw)))
          = ((fun x => x / totalOf (accumulate raw)) ∘ Prod.snd) := rfl
      rw [h1, ← List.map_map, sum_map_div]
      exact div_self hTne
    · intro h0
      exact absurd h0 (ne_of_gt hpos)
  · have hT0 : totalOf (accumulate raw) = 0 := le_antisymm (not_lt.mp hpos) hT
    have hzero : ∀ p ∈ accumulate raw, p.2 = 0 := by
      intro p hp
      have := List.all_zero_of_le_zero_le_of_sum_eq_zero
        (l := (accumulate raw).map Prod.snd)
        (by intro x hx
            simp only [List.mem_map] at hx
            obtain ⟨p', hp', hpe'⟩ := hx
            exact hpe' ▸ hnn p' hp')
        hT0 (List.mem_map_of_mem Prod.snd hp)
      exact this
    have hacc : accumulate raw = APP_EMOTIONS.map (fun e => (e, (0 : ℚ))) :=
      eq_map_zero_of_keys_of_zero _ _ hkeys hzero
    have hdeg : normalize_emotions raw = degenerateVector := by
      rw [normalize_emotions, renormalize, if_neg hpos, hacc]
      rfl
    rw [hdeg]
    refine ⟨by decide, ?_, ?_, fun _ => rfl⟩
    · intro p hp
      simp only [degenerateVector, List.mem_cons, List.not_mem_nil, or_false] at hp
      rcases hp with rfl | rfl | rfl | rfl | rfl <;> constructor <;> norm_num
    · norm_num [degenerateVector]

/-- Witness for C1 at the concrete raw input
`[("Happy", 7), ("neutral", 3)]`. -/
theorem emotion_normalize_distribution_witness :
    (∀ p ∈ [(("Happy" : String), (7 : ℚ)), ("neutral", 3)], 0 ≤ p.2) ∧
    (normalize_emotions [("Happy", 7), ("neutral", 3)]).map Prod.fst
      = APP_EMOTIONS := by
  have h := emotion_normalize_distribution
    [("Happy", 7), ("neutral", 3)] (by norm_num)
  exact ⟨by norm_num, h.1⟩

-- ----------------------------
-- Session data model
-- ----------------------------

/-- One `emotion_entry` dict appended to a session history (lines 280–286). -/
structure Entry where
  timestamp : Option ℚ
  video_time : ℚ
  emotions : List (String × ℚ)
  confidence : ℚ
  face_detected : Bool
deriving DecidableEq

/-- One session record of `video_sessions` (lines 272–277). -/
structure Session where
  start_time : ℚ
  video_url : Str
  emotion_history : List Entry
  client_id : Str
deriving DecidableEq

/-- The `video_sessions` dict: an insertion-ordered association list. -/
abbrev Store := List (Str × Session)

/-- The session-history append with the 500-entry cap (lines 288–292):
append the entry, and if the length exceeds 500 keep only the last 500
(Python `history[-500:]`). -/
def append_hist (h : List Entry) (e : Entry) : List Entry :=
  let h2 := h ++ [e]
  if 500 < h2.length then h2.drop (h2.length - 500) else h2

theorem foldl_append_hist (xs : List Entry) :
    ∀ (l : List Entry), l.length ≤ 500 →
    List.foldl append_hist l xs = (l ++ xs).drop ((l ++ xs).length - 500) := by
  induction xs with
  | nil =>
    intro l hl
    simp [Nat.sub_eq_zero_of_le hl]
  | cons x xs ih =>
    intro l hl
    rw [List.foldl_cons]
    rcases Nat.lt_or_ge l.length 500 with hlt | hge
    · have hne : ¬ 500 < (l ++ [x]).length := by
        simp only [List.length_append, List.length_cons, List.length_nil]
        omega
      have hstep : append_hist l x = l ++ [x] := by
        rw [append_hist, if_neg hne]
      have hlen : (l ++ [x]).length ≤ 500 := by
        simp only [List.length_append, List.length_cons, List.length_nil]
        omega
      rw [hstep, ih (l ++ [x]) hlen, List.append_assoc, List.singleton_append]
    · have h500 : l.length = 500 := le_antisymm hl hge
      have hgt : 500 < (l ++ [x]).length := by
        simp only [List.length_append, List.length_cons, List.length_nil]
        omega
      have hamt : (l ++ [x]).length - 500 = 1 := by
        simp only [List.length_append, List.length_cons, List.length_nil]
        omega
      have hstep : append_hist l x = (l ++ [x]).drop 1 := by
        rw [append_hist, if_pos hgt, hamt]
      have hlen : ((l ++ [x]).drop 1).length ≤ 500 := by
        simp only [List.length_drop, List.length_append, List.length_cons,
          List.length_nil]
        omega
      rw [hstep, ih _ hlen]
      have hd : (l ++ [x]).drop 1 ++ xs = ((l ++ [x]) ++ xs).drop 1 :=
        (List.drop_append_of_le_length (by simp)).symm
      rw [hd, List.drop_drop, List.append_assoc, List.singleton_append]
      have harith : 1 + (((l ++ x :: xs).drop 1).length - 500)
          = (l ++ x :: xs).length - 500 := by
        simp only [List.length_drop, List.length_append, List.length_cons]
        omega
      rw [harith]

/-- Claim C2: after any sequence of appends through the capped append, the
history is exactly the most recent entries in arrival order — appending a
list `xs` of entries into an empty history yields `xs.drop (xs.length - 500)`
(the last 500 when more than 500 were appended, hence length at most 500,
and exactly the most recent 500 of 600). -/
theorem history_cap_500 (xs : List Entry) :
    List.foldl append_hist [] xs = xs.drop (xs.length - 500) ∧
    (List.foldl append_hist [] xs).length ≤ 500 := by
  have h := foldl_append_hist xs [] (by simp)
  simp only [List.nil_append] at h
  refine ⟨h, ?_⟩
  rw [h, List.length_drop]
  omega

/-- Python `del store[k]`: remove the binding with key `k`. -/
def dictDel (store : Store) (k : Str) : Store :=
  store.filter (fun kv => !decide (kv.1 = k))

/-- Model of `create_session_key` (lines 180–182):
`f"{sid}_{hash(video_url)}_{int(datetime.now().timestamp())}"`.
Python's builtin `hash` is seed-randomized and unspecified, and the clock
is external, so both are parameters. -/
def create_session_key (hash : Str → ℤ) (sid video_url : Str) (now_ts : ℤ) : Str :=
  sid ++ ('_' :: (toString (hash video_url)).toList)
      ++ ('_' :: (toString now_ts).toList)

/-- A list is a `isPrefixOf` of itself followed by anything. -/
theorem prefixOf_self_append (p r : List Char) : p.isPrefixOf (p ++ r) = true := by
  induction p with
  | nil => simp
  | cons a as ih => simp [List.isPrefixOf, ih]

/-- A freshly created session key starts with `f"{sid}_"`. -/
theorem create_key_startswith (hash : Str → ℤ) (sid url : Str) (t : ℤ) :
    (sid ++ ['_']).isPrefixOf (create_session_key hash sid url t) = true := by
  have h : create_session_key hash sid url t
      = (sid ++ ['_']) ++
        ((toString (hash url)).toList ++ '_' :: (toString t).toList) := by
    simp [create_session_key]
  rw [h]
  exact prefixOf_self_append _ _

/-- Claim C4 (code bug): the generated session key depends only on the
connection id, the hash of the video url, and the wall-clock second — two
creations in the same clock tick whose url hashes agree (in particular two
creations for the same `(sid, video_url)` pair) produce the identical key,
contradicting the claimed (and docstring-promised) uniqueness. -/
theorem create_session_key_collision (hash : Str → ℤ) (sid u1 u2 : Str) (t : ℤ)
    (hcol : hash u1 = hash u2) :
    create_session_key hash sid u1 t = create_session_key hash sid u2 t := by
  rw [create_session_key, create_session_key, hcol]

/-- Witness for C4: with a colliding hash, two same-tick creations for two
different urls (hence also for one url twice) get the identical key. -/
theorem create_session_key_collision_witness :
    ((fun _ : Str => (0 : ℤ)) "a".toList = (fun _ : Str => (0 : ℤ)) "b".toList) ∧
    create_session_key (fun _ => 0) "s".toList "a".toList 7
      = create_session_key (fun _ => 0) "s".toList "b".toList 7 :=
  ⟨rfl, create_session_key_collision (fun _ => 0) "s".toList "a".toList "b".toList 7 rfl⟩

-- Deleting a list of keys one by one is filtering on key membership.

theorem foldl_dictDel (R : List Str) :
    ∀ (store : Store),
    R.foldl (fun st k => dictDel st k) store
      = store.filter (fun kv => !decide (kv.1 ∈ R)) := by
  induction R with
  | nil =>
    intro store
    simp [List.filter_eq_self]
  | cons r R ih =>
    intro store
    rw [List.foldl_cons, ih, dictDel, List.filter_filter]
    refine List.filter_congr ?_
    intro kv _
    by_cases h1 : kv.1 = r <;> by_cases h2 : kv.1 ∈ R <;>
      simp [h1, h2, List.mem_cons]

/-- In a store with no duplicate keys, two members with the same key are
the same entry. -/
theorem eq_of_mem_of_nodup_keys :
    ∀ (store : Store), (store.map Prod.fst).Nodup →
    ∀ a b : Str × Session, a ∈ store → b ∈ store → a.1 = b.1 → a = b := by
  intro store
  induction store with
  | nil => intro _ a b ha; simp at ha
  | cons kv st ih =>
    intro hnd a b ha hb hk
    simp only [List.map_cons, List.nodup_cons] at hnd
    simp only [List.mem_cons] at ha hb
    rcases ha with rfl | ha <;> rcases hb with rfl | hb
    · rfl
    · exact absurd (hk ▸ List.mem_map_of_mem Prod.fst hb) hnd.1
    · exact absurd (hk ▸ List.mem_map_of_mem Prod.fst ha) hnd.1
    · exact ih hnd.2 a b ha hb hk

/-- Collect-keys-then-delete (the pattern of `clean_old_sessions` and the
`disconnect` handler) is filtering with the negated predicate, provided the
store has no duplicate keys. -/
theorem remove_matching_eq_filter (store : Store) (p : Str × Session → Bool)
    (hnd : (store.map Prod.fst).Nodup) :
    ((store.filter p).map Prod.fst).foldl (fun st k => dictDel st k) store
      = store.filter (fun kv => !p kv) := by
  rw [foldl_dictDel]
  refine List.filter_congr ?_
  intro kv hkv
  have : (kv.1 ∈ (store.filter p).map Prod.fst) ↔ p kv = true := by
    constructor
    · intro hmem
      simp only [List.mem_map] at hmem
      obtain ⟨kv', hkv', hke⟩ := hmem
      have hm' := List.mem_of_mem_filter hkv'
      have hp' := List.of_mem_filter hkv'
      have : kv' = kv := eq_of_mem_of_nodup_keys store hnd kv' kv hm' hkv hke
      exact this ▸ hp'
    · intro hp
      exact List.mem_map_of_mem Prod.fst (List.mem_filter.mpr ⟨hkv, hp⟩)
  rcases Bool.eq_false_or_eq_true (p kv) with hf | ht
  · simp [hf, this]
  · simp [ht, this]

/-- Model of `clean_old_sessions` (lines 185–196), with the current time a
parameter: collect the keys of sessions whose age strictly exceeds one
hour (3600 seconds), then delete each collected key. -/
def clean_old_sessions (now : ℚ) (store : Store) : Store :=
  let sessions_to_remove :=
    (store.filter (fun kv => decide (3600 < now - kv.2.start_time))).map Prod.fst
  sessions_to_remove.foldl (fun st k => dictDel st k) store

/-- Claim C6: the sweep removes precisely the sessions whose creation time is
more than one hour (3600 s) before `now` — the decision reads only
`start_time`, never the history, so it is independent of last-append
activity (histories are universally quantified inside `store`). -/
theorem sweep_by_creation_time (now : ℚ) (store : Store)
    (hnd : (store.map Prod.fst).Nodup) :
    clean_old_sessions now store
      = store.filter (fun kv => !decide (3600 < now - kv.2.start_time)) := by
  rw [clean_old_sessions]
  exact remove_matching_eq_filter store _ hnd

/-- A concrete store for the C6 witness: a session created 61 minutes ago
(age 3660 s) that received a very recent append, and one created 30
minutes ago (age 1800 s) with an empty history. -/
def sweepStore : Store :=
  [("old_0_0".toList, ⟨0, "u1".toList, [⟨some 3659, 0, [], 0, false⟩], "old".toList⟩),
   ("new_0_0".toList, ⟨1860, "u2".toList, [], "new".toList⟩)]

/-- Witness for C6 at `now = 3660`: the 61-minute-old session is removed
despite its recent append; the 30-minute-old one is retained. -/
theorem sweep_by_creation_time_witness :
    ((sweepStore.map Prod.fst).Nodup) ∧
    clean_old_sessions 3660 sweepStore
      = [("new_0_0".toList, ⟨1860, "u2".toList, [], "new".toList⟩)] := by
  refine ⟨by decide, ?_⟩
  rw [sweep_by_creation_time 3660 sweepStore (by decide)]
  norm_num [sweepStore]

/-- The per-client cleanup in the `disconnect` handler (lines 214–222):
collect every key that starts with `f"{sid}_"`, then delete each. -/
def disconnect_cleanup (store : Store) (sid : Str) : Store :=
  let sessions_to_remove :=
    (store.filter (fun kv => (sid ++ ['_']).isPrefixOf kv.1)).map Prod.fst
  sessions_to_remove.foldl (fun st k => dictDel st k) store

/-- The store for the C5 counterexample: a single session owned by
connection `"a_b"`; its key starts with `"a_"`. -/
def disconnectCexStore : Store :=
  [("a_b_0_5".toList, ⟨0, "u".toList, [], "a_b".toList⟩)]

/-- Counterexample for C5: on disconnect of connection `"a"`, the session
owned by the different connection `"a_b"` is removed as well (its key
starts with `"a_"`), so the cleanup does not leave other connections'
sessions unchanged. -/
theorem disconnect_removes_other_connection_cex :
    (∀ kv ∈ disconnectCexStore, kv.2.client_id ≠ "a".toList) ∧
    disconnect_cleanup disconnectCexStore "a".toList = [] := by
  exact ⟨by decide, by decide⟩

/-- Claim C5 (amended): the disconnect cleanup removes exactly the sessions
whose key starts with `f"{sid}_"`; every session whose key was created by
`create_session_key` for this connection is removed, but a session of a
different connection whose key happens to start with that prefix is
removed too. -/
theorem disconnect_prefix_amended (store : Store) (sid : Str)
    (hnd : (store.map Prod.fst).Nodup) :
    disconnect_cleanup store sid
      = store.filter (fun kv => !((sid ++ ['_']).isPrefixOf kv.1)) ∧
    ∀ (hash : Str → ℤ) (url : Str) (t : ℤ) (s : Session),
      (create_session_key hash sid url t, s) ∈ store →
      (create_session_key hash sid url t, s) ∉ disconnect_cleanup store sid := by
  have hfe : disconnect_cleanup store sid
      = store.filter (fun kv => !((sid ++ ['_']).isPrefixOf kv.1)) := by
    rw [disconnect_cleanup]
    exact remove_matching_eq_filter store _ hnd
  refine ⟨hfe, ?_⟩
  intro hash url t s _ hcontra
  rw [hfe] at hcontra
  have hb := List.of_mem_filter hcontra
  simp only [create_key_startswith] at hb
  exact absurd hb (by simp)

/-- A concrete store for the C5 witness: one session of connection `"a"`
(created key) and one of connection `"b"`. -/
def disconnectWitnessStore : Store :=
  [("a_0_0".toList, ⟨0, "u".toList, [], "a".toList⟩),
   ("b_0_0".toList, ⟨0, "u".toList, [], "b".toList⟩)]

/-- Witness for the amended C5 at a concrete two-connection store. -/
theorem disconnect_prefix_amended_witness :
    ((disconnectWitnessStore.map Prod.fst).Nodup) ∧
    disconnect_cleanup disconnectWitnessStore "a".toList
      = disconnectWitnessStore.filter
          (fun kv => !(("a".toList ++ ['_']).isPrefixOf kv.1)) ∧
    (create_session_key (fun _ => 0) "a".toList "u".toList 0,
       (⟨0, "u".toList, [], "a".toList⟩ : Session)) ∉
      disconnect_cleanup disconnectWitnessStore "a".toList := by
  have h := disconnect_prefix_amended disconnectWitnessStore "a".toList (by decide)
  exact ⟨by decide, h.1, h.2 (fun _ => 0) "u".toList 0 _ (by decide)⟩

/-- The existing-session scan of the `frame` handler (lines 263–267):
the first session whose key starts with `f"{sid}_"` and whose stored
`video_url` equals the current one. -/
def find_existing (store : Store) (sid url : Str) : Option (Str × Session) :=
  store.find?
    (fun kv => (sid ++ ['_']).isPrefixOf kv.1 && decide (kv.2.video_url = url))

/-- Python dict assignment `store[k] = s`: replace in place when the key
is present, else append at the end (CPython insertion-order semantics). -/
def dictSet (store : Store) (k : Str) (s : Session) : Store :=
  if (store.find? (fun kv => decide (kv.1 = k))).isSome
  then store.map (fun kv => if kv.1 = k then (k, s) else kv)
  else store ++ [(k, s)]

/-- Session resolution inside the `frame` handler (lines 259–277): compute
a candidate key with `create_session_key`, scan for an existing
(connection, video) session, reuse its key if found, else insert a new
session under the candidate key. -/
def resolve_session (hash : Str → ℤ) (store : Store) (sid url : Str)
    (now_ts : ℤ) (now : ℚ) : Str × Store :=
  let session_key := create_session_key hash sid url now_ts
  match find_existing store sid url with
  | some kv => (kv.1, store)
  | none => (session_key, dictSet store session_key ⟨now, url, [], sid⟩)

theorem dictSet_self_mem (store : Store) (k : Str) (s : Session) :
    (k, s) ∈ dictSet store k s := by
  rw [dictSet]
  by_cases h : ((store.find? (fun kv => decide (kv.1 = k))).isSome : Prop)
  · rw [if_pos h]
    rw [List.find?_isSome] at h
    obtain ⟨kv, hkv, hp⟩ := h
    simp only [decide_eq_true_eq] at hp
    refine List.mem_map.mpr ⟨kv, hkv, ?_⟩
    simp [hp]
  · rw [if_neg h]
    simp

theorem dictSet_mem_ne (store : Store) (k : Str) (s : Session)
    (kv' : Str × Session) (h : kv' ∈ dictSet store k s) (hne : kv'.1 ≠ k) :
    kv' ∈ store := by
  rw [dictSet] at h
  by_cases hc : ((store.find? (fun kv => decide (kv.1 = k))).isSome : Prop)
  · rw [if_pos hc] at h
    simp only [List.mem_map] at h
    obtain ⟨kv, hkv, hke⟩ := h
    by_cases hk : kv.1 = k
    · rw [if_pos hk] at hke
      exact absurd (by rw [← hke]) hne
    · rw [if_neg hk] at hke
      exact hke ▸ hkv
  · rw [if_neg hc] at h
    simp only [List.mem_append, List.mem_singleton] at h
    rcases h with h | h
    · exact h
    · exact absurd (by rw [h]) hne

theorem dictSet_nodup (store : Store) (k : Str) (s : Session)
    (hnd : (store.map Prod.fst).Nodup) :
    ((dictSet store k s).map Prod.fst).Nodup := by
  rw [dictSet]
  by_cases hc : ((store.find? (fun kv => decide (kv.1 = k))).isSome : Prop)
  · rw [if_pos hc]
    have hkeys : (store.map (fun kv : Str × Session =>
        if kv.1 = k then (k, s) else kv)).map Prod.fst = store.map Prod.fst := by
      rw [List.map_map]
      refine List.map_congr_left ?_
      intro kv _
      simp only [Function.comp_apply]
      by_cases hk : kv.1 = k
      · rw [if_pos hk]
        exact hk.symm
      · rw [if_neg hk]
    rw [hkeys]
    exact hnd
  · rw [if_neg hc]
    have hforall : ∀ kv ∈ store, kv.1 ≠ k := by
      intro kv hkv hke
      exact hc (by rw [List.find?_isSome]; exact ⟨kv, hkv, by simp [hke]⟩)
    have hknotin : k ∉ store.map Prod.fst := by
      intro hmem
      simp only [List.mem_map] at hmem
      obtain ⟨kv, hkv, hke⟩ := hmem
      exact hforall kv hkv hke
    simp only [List.map_append, List.map_cons, List.map_nil]
    rw [List.nodup_append]
    refine ⟨hnd, by simp, ?_⟩
    intro a ha hb
    simp only [List.mem_singleton] at hb
    exact hknotin (hb ▸ ha)

/-- After a resolve, the returned key is bound in the returned store to a
session whose `video_url` is the requested one, and the key starts with
the `f"{sid}_"` prefix. -/
theorem resolve_post (hash : Str → ℤ) (store : Store) (sid url : Str)
    (t : ℤ) (n : ℚ) :
    ∃ s : Session,
      ((resolve_session hash store sid url t n).1, s)
          ∈ (resolve_session hash store sid url t n).2 ∧
      s.video_url = url ∧
      (sid ++ ['_']).isPrefixOf (resolve_session hash store sid url t n).1
        = true := by
  rw [resolve_session]
  cases hfind : find_existing store sid url with
  | some kv =>
    rw [find_existing] at hfind
    have hp := List.find?_some hfind
    have hmem := List.mem_of_find?_eq_some hfind
    rw [Bool.and_eq_true, decide_eq_true_eq] at hp
    exact ⟨kv.2, hmem, hp.2, hp.1⟩
  | none =>
    exact ⟨⟨n, url, [], sid⟩, dictSet_self_mem _ _ _, rfl,
      create_key_startswith hash sid url t⟩

/-- Part A of C3: a second resolve with the identical (connection,
content) pair returns the key of the first resolve and leaves the store
unchanged — the existing session is reused, no duplicate created. -/
theorem resolve_idem (hash : Str → ℤ) (store : Store) (sid u : Str)
    (t1 t2 : ℤ) (n1 n2 : ℚ) :
    resolve_session hash (resolve_session hash store sid u t1 n1).2 sid u t2 n2
      = ((resolve_session hash store sid u t1 n1).1,
         (resolve_session hash store sid u t1 n1).2) := by
  cases hfind : find_existing store sid u with
  | some kv =>
    have h1 : resolve_session hash store sid u t1 n1 = (kv.1, store) := by
      rw [resolve_session, hfind]
    rw [h1]
    rw [resolve_session, hfind]
  | none =>
    have h1 : resolve_session hash store sid u t1 n1
        = (create_session_key hash sid u t1,
           dictSet store (create_session_key hash sid u t1) ⟨n1, u, [], sid⟩) := by
      rw [resolve_session, hfind]
    rw [h1]
    set cand := create_session_key hash sid u t1 with hcand
    set st1 := dictSet store cand ⟨n1, u, [], sid⟩ with hst1
    have hnotin := List.find?_eq_none.mp hfind
    cases hfind2 : find_existing st1 sid u with
    | none =>
      exfalso
      have hmem : (cand, (⟨n1, u, [], sid⟩ : Session)) ∈ st1 :=
        dictSet_self_mem _ _ _
      have := List.find?_eq_none.mp hfind2 _ hmem
      apply this
      rw [Bool.and_eq_true, decide_eq_true_eq]
      exact ⟨create_key_startswith hash sid u t1, rfl⟩
    | some kv2 =>
      have hp2 := List.find?_some hfind2
      have hmem2 := List.mem_of_find?_eq_some hfind2
      have hkey : kv2.1 = cand := by
        by_contra hne
        have hin : kv2 ∈ store := dictSet_mem_ne store cand _ kv2 hmem2 hne
        exact (hnotin kv2 hin) hp2
      rw [resolve_session, hfind2]
      simp [hkey]

/-- The resolve step preserves key uniqueness of the store. -/
theorem resolve_nodup (hash : Str → ℤ) (store : Store) (sid url : Str)
    (t : ℤ) (n : ℚ) (hnd : (store.map Prod.fst).Nodup) :
    (((resolve_session hash store sid url t n).2).map Prod.fst).Nodup := by
  rw [resolve_session]
  cases hfind : find_existing store sid url with
  | some kv => exact hnd
  | none => exact dictSet_nodup store _ _ hnd

/-- Claim C3 (amended): resolving twice with the identical (connectionId,
contentId) pair and no intervening delete yields the same session key both
times and leaves the store unchanged (no duplicate session); resolving
with a different contentId for the same connection yields a different key
provided the candidate key freshly generated for the second contentId does
not coincide verbatim with the first returned key (with Python's
seed-randomized `hash` a coincidence is possible: same connection, equal
url hashes, same clock second). -/
theorem resolve_reuse_amended (hash : Str → ℤ) (store : Store)
    (sid u1 u2 : Str) (t1 t2 t3 : ℤ) (n1 n2 n3 : ℚ)
    (hnd : (store.map Prod.fst).Nodup) (hne : u1 ≠ u2)
    (hfresh : create_session_key hash sid u2 t3
      ≠ (resolve_session hash store sid u1 t1 n1).1) :
    ((resolve_session hash (resolve_session hash store sid u1 t1 n1).2
        sid u1 t2 n2).1
      = (resolve_session hash store sid u1 t1 n1).1) ∧
    ((resolve_session hash (resolve_session hash store sid u1 t1 n1).2
        sid u1 t2 n2).2
      = (resolve_session hash store sid u1 t1 n1).2) ∧
    ((resolve_session hash (resolve_session hash store sid u1 t1 n1).2
        sid u2 t3 n3).1
      ≠ (resolve_session hash store sid u1 t1 n1).1) := by
  have hidem := resolve_idem hash store sid u1 t1 t2 n1 n2
  refine ⟨by rw [hidem], by rw [hidem], ?_⟩
  set k1 := (resolve_session hash store sid u1 t1 n1).1 with hk1
  set s1 := (resolve_session hash store sid u1 t1 n1).2 with hs1
  have hnd1 : (s1.map Prod.fst).Nodup := resolve_nodup hash store sid u1 t1 n1 hnd
  obtain ⟨s, hsmem, hsurl, _⟩ := resolve_post hash store sid u1 t1 n1
  rw [resolve_session]
  cases hfind2 : find_existing s1 sid u2 with
  | some kv2 =>
    have hp2 := List.find?_some hfind2
    have hmem2 := List.mem_of_find?_eq_some hfind2
    rw [Bool.and_eq_true, decide_eq_true_eq] at hp2
    intro heq
    simp only at heq
    have : kv2 = (k1, s) :=
      eq_of_mem_of_nodup_keys s1 hnd1 kv2 (k1, s) hmem2 hsmem heq
    rw [this] at hp2
    exact hne (hsurl ▸ hp2.2)
  | none =>
    intro heq
    simp only at heq
    exact hfresh heq

/-- Counterexample for C3: with a colliding hash (legal for Python's
seed-randomized `hash`) and the same clock second, resolving
`(sid, "a")` creates key `"s_0_0"`; resolving `(sid, "b")` then finds no
matching session, regenerates the same candidate key, and returns it —
two different contentIds yield the same session key (and the second
insert overwrites the first session). -/
theorem resolve_different_url_same_key_cex :
    ("a".toList ≠ "b".toList) ∧
    ((resolve_session (fun _ => 0)
        (resolve_session (fun _ => 0) [] "s".toList "a".toList 0 0).2
        "s".toList "b".toList 0 0).1
      = (resolve_session (fun _ => 0) [] "s".toList "a".toList 0 0).1) := by
  exact ⟨by decide, by decide⟩

/-- Witness for the amended C3: empty store, connection `"s"`, urls `"a"`
then `"b"`, second creation in a different clock second. -/
theorem resolve_reuse_amended_witness :
    ((([] : Store).map Prod.fst).Nodup ∧ "a".toList ≠ "b".toList ∧
      create_session_key (fun _ => 0) "s".toList "b".toList 5
        ≠ (resolve_session (fun _ => 0) [] "s".toList "a".toList 0 0).1) ∧
    ((resolve_session (fun _ => 0)
        (resolve_session (fun _ => 0) [] "s".toList "a".toList 0 0).2
        "s".toList "a".toList 3 1).1
      = (resolve_session (fun _ => 0) [] "s".toList "a".toList 0 0).1) ∧
    ((resolve_session (fun _ => 0)
        (resolve_session (fun _ => 0) [] "s".toList "a".toList 0 0).2
        "s".toList "b".toList 5 2).1
      ≠ (resolve_session (fun _ => 0) [] "s".toList "a".toList 0 0).1) := by
  have h := resolve_reuse_amended (fun _ => 0) [] "s".toList "a".toList "b".toList
    0 3 5 0 1 2 (by decide) (by decide) (by decide)
  exact ⟨⟨by decide, by decide, by decide⟩, h.1, h.2.2⟩

-- ----------------------------
-- The frame handler
-- ----------------------------

/-- The payload of one inbound `frame` event; a field absent from the dict
is `none` (`data.get`). -/
structure FrameData where
  img : Option String
  timestamp : Option ℚ
  videoTime : Option ℚ
  videoUrl : Option Str

/-- Python truthiness of the image payload: `not img_data` is true exactly
when the field is absent or the empty string. -/
def truthyStr : Option String → Bool
  | none => false
  | some s => !decide (s = "")

/-- Python truthiness of the timestamp: `not timestamp` is true exactly
when the field is absent or the number `0`. -/
def truthyNum : Option ℚ → Bool
  | none => false
  | some q => !decide (q = 0)

/-- What `predict_emotion_local` can observe of its external collaborators
for one input image: the image may be below the 64-pixel minimum size, the
classifier may return raw (label, probability) pairs, or the inference
stack may raise an exception. -/
inductive ClassifierOutcome where
  | tooSmall
  | ok (raw : List (String × ℚ))
  | failed (msg : String)

/-- Model of `predict_emotion_local` (lines 135–174) given the classifier outcome
for its input image: a too-small image returns the all-zero dict (lines
141–142, skipping normalization), a classifier result is mapped and
renormalized (lines 156–170), and an exception inside the `try` is caught
and returns the fixed fallback dict with `neutral = 1.0` (line 174). -/
def predict_emotion_local : ClassifierOutcome → List (String × ℚ)
  | .tooSmall => APP_EMOTIONS.map (fun e => (e, 0))
  | .ok raw => normalize_emotions raw
  | .failed _ =>
      [("joy", 0), ("surprise", 0), ("anger", 0), ("sadness", 0), ("neutral", 1)]

/-- One emitted `emotion` event payload; dict keys that a branch does not
set are `none`. -/
structure Emission where
  emotions : List (String × ℚ)
  timestamp : Option ℚ
  videoTime : ℚ
  confidence : ℚ
  face_detected : Bool
  session_id : Option Str
  error : Option String

/-- Model of `max(emotions.values())` — Python `max` over the dict values (the
dicts reaching it always have the five app labels). -/
def maxValues : List (String × ℚ) → ℚ
  | [] => 0
  | p :: ps => ps.foldl (fun a q => max a q.2) p.2

/-- The body of the `frame` handler's `try` block (lines 227–302),
parameterized by the external collaborators: `decode` (`decode_image`,
`none` on failure), `crop` (`crop_face_mediapipe`, `none` when no face or
on an internal error), and `classify` (the ViT stack's behaviour on a
given image). A `raise` that reaches the handler boundary is `.error`. -/
def frame_try (Image : Type) (decode : String → Option Image)
    (crop : Image → Option Image) (classify : Image → ClassifierOutcome)
    (hash : Str → ℤ) (now_ts : ℤ) (now : ℚ)
    (store : Store) (sid : Str) (data : FrameData) :
    Except String (Emission × Store) :=
  let img_data := data.img
  let timestamp := data.timestamp
  let video_time := (data.videoTime).getD 0
  let video_url := (data.videoUrl).getD []
  if !truthyStr img_data || !truthyNum timestamp then
    .ok ({ emotions := [("neutral", 1)], timestamp := timestamp,
           videoTime := video_time, confidence := 0, face_detected := false,
           session_id := none, error := none }, store)
  else
    match decode (img_data.getD "") with
    | none => .error "Failed to decode image"
    | some img_pil =>
      let face_crop := crop img_pil
      let input_img := face_crop.getD img_pil
      let emotions := predict_emotion_local (classify input_img)
      let confidence := min (maxValues emotions * (6 / 5)) 1
      let rs := resolve_session hash store sid video_url now_ts now
      let entry : Entry :=
        { timestamp := timestamp, video_time := video_time,
          emotions := emotions, confidence := confidence,
          face_detected := face_crop.isSome }
      let store2 := (rs.2).map (fun kv =>
        if kv.1 = rs.1 then
          (kv.1, { kv.2 with
                   emotion_history := append_hist kv.2.emotion_history entry })
        else kv)
      .ok ({ emotions := emotions, timestamp := timestamp,
             videoTime := video_time, confidence := confidence,
             face_detected := face_crop.isSome, session_id := some rs.1,
             error := none }, store2)

/-- The `frame` handler (lines 226–313): run the try body; any exception
is caught at the boundary (lines 304–313) and converted into the
degenerate emission annotated with the error string, with the timestamp
defaulted to `0` when absent, leaving the store unchanged. -/
def frame (Image : Type) (decode : String → Option Image)
    (crop : Image → Option Image) (classify : Image → ClassifierOutcome)
    (hash : Str → ℤ) (now_ts : ℤ) (now : ℚ)
    (store : Store) (sid : Str) (data : FrameData) : Emission × Store :=
  match frame_try Image decode crop classify hash now_ts now store sid data with
  | .ok r => r
  | .error e =>
      ({ emotions := [("neutral", 1)],
         timestamp := some ((data.timestamp).getD 0),
         videoTime := (data.videoTime).getD 0, confidence := 0,
         face_detected := false, session_id := none, error := some e }, store)

/-- Claim C7: a frame event missing the image payload or the timestamp field is
answered immediately with the degenerate emission — `{neutral: 1.0}`,
confidence `0`, `face_detected = false`, no session id and no error key —
carrying through the supplied timestamp and videoTime, and the session
store is left completely unchanged. -/
theorem frame_missing_fields_degenerate (Image : Type)
    (decode : String → Option Image) (crop : Image → Option Image)
    (classify : Image → ClassifierOutcome) (hash : Str → ℤ)
    (now_ts : ℤ) (now : ℚ) (store : Store) (sid : Str) (data : FrameData)
    (hmiss : data.img = none ∨ data.timestamp = none) :
    frame Image decode crop classify hash now_ts now store sid data
      = ({ emotions := [("neutral", 1)], timestamp := data.timestamp,
           videoTime := (data.videoTime).getD 0, confidence := 0,
           face_detected := false, session_id := none, error := none },
         store) := by
  have hcond : (!truthyStr data.img || !truthyNum data.timestamp) = true := by
    rcases hmiss with h | h <;> rw [h] <;> simp [truthyStr, truthyNum]
  rw [frame, frame_try]
  simp only [hcond, if_true]

/-- Witness for C7: a frame with no `img` field. -/
theorem frame_missing_fields_degenerate_witness :
    ((⟨none, some 1, none, none⟩ : FrameData).img = none ∨
      (⟨none, some 1, none, none⟩ : FrameData).timestamp = none) ∧
    frame Unit (fun _ => none) (fun _ => none) (fun _ => .tooSmall)
        (fun _ => 0) 0 0 [] "s".toList ⟨none, some 1, none, none⟩
      = ({ emotions := [("neutral", 1)], timestamp := some 1, videoTime := 0,
           confidence := 0, face_detected := false, session_id := none,
           error := none }, []) := by
  refine ⟨Or.inl rfl, ?_⟩
  rw [frame_missing_fields_degenerate Unit (fun _ => none) (fun _ => none)
    (fun _ => .tooSmall) (fun _ => 0) 0 0 [] "s".toList
    ⟨none, some 1, none, none⟩ (Or.inl rfl)]
  rfl

/-- Claim C10: a frame event whose `timestamp` is present but `0`, or whose
`img` is present but the empty string, takes the missing-field branch by
Python truthiness: degenerate emission, no session touched. -/
theorem frame_falsy_fields_degenerate (Image : Type)
    (decode : String → Option Image) (crop : Image → Option Image)
    (classify : Image → ClassifierOutcome) (hash : Str → ℤ)
    (now_ts : ℤ) (now : ℚ) (store : Store) (sid : Str) (data : FrameData)
    (hfalsy : data.img = some "" ∨ data.timestamp = some 0) :
    frame Image decode crop classify hash now_ts now store sid data
      = ({ emotions := [("neutral", 1)], timestamp := data.timestamp,
           videoTime := (data.videoTime).getD 0, confidence := 0,
           face_detected := false, session_id := none, error := none },
         store) := by
  have hcond : (!truthyStr data.img || !truthyNum data.timestamp) = true := by
    rcases hfalsy with h | h <;> rw [h] <;> simp [truthyStr, truthyNum]
  rw [frame, frame_try]
  simp only [hcond, if_true]

/-- Witness for C10: a frame with `timestamp = 0` (present but falsy). -/
theorem frame_falsy_fields_degenerate_witness :
    ((⟨some "x", some 0, some 7, none⟩ : FrameData).img = some "" ∨
      (⟨some "x", some 0, some 7, none⟩ : FrameData).timestamp = some 0) ∧
    frame Unit (fun _ => some ()) (fun _ => none) (fun _ => .tooSmall)
        (fun _ => 0) 0 0 [] "s".toList ⟨some "x", some 0, some 7, none⟩
      = ({ emotions := [("neutral", 1)], timestamp := some 0, videoTime := 7,
           confidence := 0, face_detected := false, session_id := none,
           error := none }, []) := by
  refine ⟨Or.inr rfl, ?_⟩
  rw [frame_falsy_fields_degenerate Unit (fun _ => some ()) (fun _ => none)
    (fun _ => .tooSmall) (fun _ => 0) 0 0 [] "s".toList
    ⟨some "x", some 0, some 7, none⟩ (Or.inr rfl)]
  rfl

/-- Claim C8 (amended): an exception that reaches the frame-handler boundary —
in this handler the explicit `raise ValueError` on image-decode failure —
is caught and converted into the degenerate emission (`{neutral: 1.0}`,
confidence `0`, `face_detected = false`) annotated with the error string,
and the session store is left unchanged, so the connection survives.
Face-location and classification failures are absorbed before the
boundary and do not produce this shape (see the counterexample). -/
theorem frame_decode_failure_amended (Image : Type)
    (decode : String → Option Image) (crop : Image → Option Image)
    (classify : Image → ClassifierOutcome) (hash : Str → ℤ)
    (now_ts : ℤ) (now : ℚ) (store : Store) (sid : Str) (data : FrameData)
    (himg : truthyStr data.img = true) (hts : truthyNum data.timestamp = true)
    (hdec : decode ((data.img).getD "") = none) :
    frame Image decode crop classify hash now_ts now store sid data
      = ({ emotions := [("neutral", 1)],
           timestamp := some ((data.timestamp).getD 0),
           videoTime := (data.videoTime).getD 0, confidence := 0,
           face_detected := false, session_id := none,
           error := some "Failed to decode image" }, store) := by
  have htry : frame_try Image decode crop classify hash now_ts now store sid data
      = .error "Failed to decode image" := by
    rw [frame_try]
    simp only [himg, hts, Bool.not_true, Bool.or_self, Bool.false_eq_true,
      if_false, hdec]
  rw [frame, htry]

/-- Witness for the amended C8: decode failure at a concrete frame. -/
theorem frame_decode_failure_amended_witness :
    (truthyStr (⟨some "x", some 1, none, none⟩ : FrameData).img = true ∧
      truthyNum (⟨some "x", some 1, none, none⟩ : FrameData).timestamp = true ∧
      (fun _ : String => (none : Option Unit))
          (((⟨some "x", some 1, none, none⟩ : FrameData).img).getD "") = none) ∧
    frame Unit (fun _ => none) (fun _ => none) (fun _ => .tooSmall)
        (fun _ => 0) 0 0 [] "s".toList ⟨some "x", some 1, none, none⟩
      = ({ emotions := [("neutral", 1)], timestamp := some 1, videoTime := 0,
           confidence := 0, face_detected := false, session_id := none,
           error := some "Failed to decode image" }, []) := by
  refine ⟨⟨by decide, by decide, rfl⟩, ?_⟩
  rw [frame_decode_failure_amended Unit (fun _ => none) (fun _ => none)
    (fun _ => .tooSmall) (fun _ => 0) 0 0 [] "s".toList
    ⟨some "x", some 1, none, none⟩ (by decide) (by decide) rfl]
  rfl

/-- Counterexample for C8: a classification failure (an exception inside
`predict_emotion_local`'s try) is absorbed by the predictor's own
`except`, which returns the fallback dict with `neutral = 1.0`; the
handler then proceeds normally: the emitted confidence is
`min(1.0 * 1.2, 1.0) = 1.0` (not `0.0`), no error string is attached, and
a session is created and appended to — not the degenerate emission the
claim requires for every failure. -/
theorem classify_failure_not_degenerate_cex :
    ((frame Unit (fun _ => some ()) (fun _ => none) (fun _ => .failed "boom")
        (fun _ => 0) 0 0 [] "s".toList ⟨some "x", some 1, none, none⟩).1.confidence
      = 1) ∧
    ((frame Unit (fun _ => some ()) (fun _ => none) (fun _ => .failed "boom")
        (fun _ => 0) 0 0 [] "s".toList ⟨some "x", some 1, none, none⟩).1.error
      = none) ∧
    ((frame Unit (fun _ => some ()) (fun _ => none) (fun _ => .failed "boom")
        (fun _ => 0) 0 0 [] "s".toList ⟨some "x", some 1, none, none⟩).2
      ≠ []) := by
  refine ⟨?_, ?_, ?_⟩
  · show min (maxValues (predict_emotion_local (.failed "boom")) * (6 / 5)) 1 = 1
    rw [predict_emotion_local]
    norm_num [maxValues]
  · rfl
  · simp [frame, frame_try, truthyStr, truthyNum, resolve_session,
      find_existing, dictSet]

-- ----------------------------
-- Analytics
-- ----------------------------

/-- Python `max(keys, key=f)`: scan left to right, replacing the current
best only on a strictly greater value (so ties keep the earlier key).
The `[]` guard mirrors `if avg_emotions else "neutral"` (line 486). -/
def pyMaxKey (f : String → ℚ) : List String → String
  | [] => "neutral"
  | k :: ks => ks.foldl (fun best k2 => if f best < f k2 then k2 else best) k

/-- The value-collection loop of `get_analytics_summary` (lines 467–474)
for one bucket label of `all_emotions` (the buckets are exactly
`APP_EMOTIONS`): every value stored under that label across all sessions'
flattened histories, in iteration order. -/
def collect_values (store : Store) (emo : String) : List ℚ :=
  (store.map Prod.snd).flatMap (fun s =>
    s.emotion_history.flatMap (fun entry =>
      entry.emotions.filterMap (fun p =>
        if p.1 = emo then some p.2 else none)))

/-- Model of `avg_emotions[emotion] = sum(values)/len(values) if values else 0.0`
(lines 477–479). -/
def avg_emotion (store : Store) (emo : String) : ℚ :=
  let vs := collect_values store emo
  if vs = [] then 0 else vs.sum / vs.length

/-- The successful payload of `get_analytics_summary` (lines 481–487). -/
structure Summary where
  total_sessions : ℕ
  total_data_points : ℕ
  average_confidence : ℚ
  average_emotions : List (String × ℚ)
  most_common_emotion : String

/-- Model of `get_analytics_summary` (lines 457–487); `none` models the
`{"message": "No active sessions"}` early return on an empty store. -/
def get_analytics_summary (store : Store) : Option Summary :=
  if store = [] then none
  else
    let allEntries := (store.map Prod.snd).flatMap (fun s => s.emotion_history)
    let confidences := allEntries.map (fun e => e.confidence)
    some
      { total_sessions := store.length
        total_data_points := allEntries.length
        average_confidence :=
          if confidences = [] then 0 else confidences.sum / confidences.length
        average_emotions := APP_EMOTIONS.map (fun e => (e, avg_emotion store e))
        most_common_emotion := pyMaxKey (avg_emotion store) APP_EMOTIONS }

/-- Claim-side notion, written from the specification's words for the
refinement comparison: the score a frame entry assigns to a label. -/
def scoreOf (e : Entry) (l : String) : ℚ :=
  ((e.emotions.find? (fun p => p.1 == l)).map Prod.snd).getD 0

/-- Claim-side notion (specification's words): a label is *strictly
dominant* in an entry when it occurs and its score strictly exceeds every
other label's score in that entry. -/
def strictlyDominantIn (e : Entry) (l : String) : Bool :=
  decide (l ∈ e.emotions.map Prod.fst) &&
  e.emotions.all (fun p => p.1 == l || decide (p.2 < scoreOf e l))

/-- Claim-side notion (specification's words): in how many frame entries
across all sessions' flattened histories the label is strictly dominant. -/
def dominantCount (store : Store) (l : String) : ℕ :=
  (((store.map Prod.snd).flatMap (fun s => s.emotion_history)).filter
    (fun e => strictlyDominantIn e l)).length

theorem pyMaxKey_foldl_spec (f : String → ℚ) (ks : List String) :
    ∀ k : String,
    (ks.foldl (fun best k2 => if f best < f k2 then k2 else best) k) ∈ (k :: ks) ∧
    ∀ l ∈ k :: ks,
      f l ≤ f (ks.foldl (fun best k2 => if f best < f k2 then k2 else best) k) := by
  induction ks with
  | nil =>
    intro k
    refine ⟨by simp, ?_⟩
    intro l hl
    simp only [List.mem_singleton] at hl
    subst hl
    simp
  | cons k2 ks ih =>
    intro k
    rw [List.foldl_cons]
    set k' := if f k < f k2 then k2 else k with hk'
    obtain ⟨ihmem, ihmax⟩ := ih k'
    have hk'mem : k' ∈ [k, k2] := by
      rw [hk']
      by_cases h : f k < f k2
      · rw [if_pos h]; simp
      · rw [if_neg h]; simp
    have hkle : f k ≤ f k' := by
      rw [hk']
      by_cases h : f k < f k2
      · rw [if_pos h]; exact le_of_lt h
      · rw [if_neg h]
    have hk2le : f k2 ≤ f k' := by
      rw [hk']
      by_cases h : f k < f k2
      · rw [if_pos h]
      · rw [if_neg h]; exact not_lt.mp h
    constructor
    · have := ihmem
      simp only [List.mem_cons] at this ⊢
      rcases this with h | h
      · rcases List.mem_pair.mp (h ▸ hk'mem) with h' | h' <;> simp [h']
      · simp [h]
    · intro l hl
      simp only [List.mem_cons] at hl
      have hbest := ihmax k' (by simp)
      rcases hl with rfl | rfl | hl
      · exact le_trans hkle hbest
      · exact le_trans hk2le hbest
      · exact ihmax l (by simp [hl])

/-- Claim C9 (amended): for every non-empty store, `get_analytics_summary`
returns a summary whose `most_common_emotion` is an application label that
maximizes the *average collected value* `avg_emotions` (Python
`max(avg_emotions, key=avg_emotions.get)`, ties keeping the earlier label
in the fixed order) — not the label dominant in the most entries. -/
theorem summary_most_common_amended (store : Store) (hne : store ≠ []) :
    ∃ s : Summary, get_analytics_summary store = some s ∧
      s.most_common_emotion ∈ APP_EMOTIONS ∧
      ∀ l ∈ APP_EMOTIONS,
        avg_emotion store l ≤ avg_emotion store s.most_common_emotion := by
  rw [get_analytics_summary, if_neg hne]
  refine ⟨_, rfl, ?_, ?_⟩
  · exact (pyMaxKey_foldl_spec (avg_emotion store)
      ["surprise", "anger", "sadness", "neutral"] "joy").1
  · exact (pyMaxKey_foldl_spec (avg_emotion store)
      ["surprise", "anger", "sadness", "neutral"] "joy").2

/-- A concrete one-session store for the C9 witness. -/
def summaryWitnessStore : Store :=
  [("k_0_0".toList, ⟨0, "u".toList, [], "c".toList⟩)]

/-- Witness for the amended C9 at a concrete non-empty store. -/
theorem summary_most_common_amended_witness :
    (summaryWitnessStore ≠ []) ∧
    (∃ s : Summary, get_analytics_summary summaryWitnessStore = some s ∧
      s.most_common_emotion ∈ APP_EMOTIONS ∧
      ∀ l ∈ APP_EMOTIONS,
        avg_emotion summaryWitnessStore l
          ≤ avg_emotion summaryWitnessStore s.most_common_emotion) :=
  ⟨by decide, summary_most_common_amended summaryWitnessStore (by decide)⟩

/-- A concrete store for the C9 counterexample: three entries; `joy` is
strictly dominant in two of them, `anger` in one, yet `anger` has the
larger average value. -/
def summaryCexStore : Store :=
  [("k_0_0".toList,
    ⟨0, "u".toList,
     [⟨some 1, 0, [("joy", 51/100), ("surprise", 0), ("anger", 49/100),
                   ("sadness", 0), ("neutral", 0)], 1, true⟩,
      ⟨some 2, 0, [("joy", 51/100), ("surprise", 0), ("anger", 49/100),
                   ("sadness", 0), ("neutral", 0)], 1, true⟩,
      ⟨some 3, 0, [("joy", 0), ("surprise", 0), ("anger", 1),
                   ("sadness", 0), ("neutral", 0)], 1, true⟩],
     "c".toList⟩)]

/-- Counterexample for C9: in `summaryCexStore` the label dominant in the
greatest number of entries is `joy` (2 of 3, every other label at most 1),
but the summary's `most_common_emotion` is `anger` (average 33/50 beats
joy's 17/50). -/
theorem summary_most_common_cex :
    (Option.map Summary.most_common_emotion
        (get_analytics_summary summaryCexStore) = some "anger") ∧
    dominantCount summaryCexStore "joy" = 2 ∧
    (∀ l ∈ APP_EMOTIONS, l ≠ "joy" → dominantCount summaryCexStore l ≤ 1) := by
  have hjoy : avg_emotion summaryCexStore "joy" = 17/50 := by
    simp +decide [avg_emotion, collect_values, summaryCexStore,
      List.filterMap_cons]
    norm_num
  have hsur : avg_emotion summaryCexStore "surprise" = 0 := by
    simp +decide [avg_emotion, collect_values, summaryCexStore,
      List.filterMap_cons]
  have hang : avg_emotion summaryCexStore "anger" = 33/50 := by
    simp +decide [avg_emotion, collect_values, summaryCexStore,
      List.filterMap_cons]
    norm_num
  have hsad : avg_emotion summaryCexStore "sadness" = 0 := by
    simp +decide [avg_emotion, collect_values, summaryCexStore,
      List.filterMap_cons]
  have hneu : avg_emotion summaryCexStore "neutral" = 0 := by
    simp +decide [avg_emotion, collect_values, summaryCexStore,
      List.filterMap_cons]
  refine ⟨?_, ?_, ?_⟩
  · rw [get_analytics_summary, if_neg (by decide)]
    rw [Option.map_some']
    have hpm : pyMaxKey (avg_emotion summaryCexStore) APP_EMOTIONS = "anger" := by
      show ["surprise", "anger", "sadness", "neutral"].foldl
          (fun best k2 => if avg_emotion summaryCexStore best
              < avg_emotion summaryCexStore k2 then k2 else best) "joy" = "anger"
      norm_num [List.foldl_cons, List.foldl_nil, hjoy, hsur, hang, hsad, hneu]
    rw [show (Summary.most_common_emotion
        { total_sessions := _, total_data_points := _, average_confidence := _,
          average_emotions := _,
          most_common_emotion := pyMaxKey (avg_emotion summaryCexStore) APP_EMOTIONS })
        = pyMaxKey (avg_emotion summaryCexStore) APP_EMOTIONS from rfl, hpm]
  · simp +decide [dominantCount, summaryCexStore, strictlyDominantIn, scoreOf,
      List.filter_cons]
    norm_num
  · intro l hl hlne
    fin_cases hl
    · exact absurd rfl hlne
    · simp +decide [dominantCount, summaryCexStore, strictlyDominantIn, scoreOf,
        List.filter_cons]
    · simp +decide [dominantCount, summaryCexStore, strictlyDominantIn, scoreOf,
        List.filter_cons]
      norm_num
    · simp +decide [dominantCount, summaryCexStore, strictlyDominantIn, scoreOf,
        List.filter_cons]
    · simp +decide [dominantCount, summaryCexStore, strictlyDominantIn, scoreOf,
        List.filter_cons]

end NeuroLens
